import Mathlib

/-!
Verification of the Lumina front-end's core logic (aspect-ratio resolution,
size-tier selection, prompt/response text extraction, and the
localStorage-backed artifact store), shallowly embedded from the TypeScript
source.  Numbers that the source manipulates as JS numbers are modelled as
`ℚ` (exact arithmetic) where ratios are compared, and as `ℕ` for pixel
dimensions and timestamps.  Strings are modelled as `List Char` (with
`String` wrappers), and the browser `localStorage` as a record with one typed
field per storage key used by the source; JSON (de)serialization is treated
as the identity on the typed values it round-trips.
-/

/-- The `AspectRatio` enumeration from `types.ts`, in declaration order. -/
inductive AspectRatio : Type
  | SQUARE
  | PORTRAIT_3_4
  | LANDSCAPE_4_3
  | PORTRAIT_9_16
  | LANDSCAPE_16_9
deriving DecidableEq

/-- The `ImageSize` enumeration from `types.ts` (1K / 2K / 4K). -/
inductive ImageSize : Type
  | K1
  | K2
  | K4
deriving DecidableEq

/-- The `type` tag of a `HistoryItem` from `types.ts`. -/
inductive HistoryType : Type
  | GENERATED
  | EDITED
  | LOGO
deriving DecidableEq

/-- The defining ratio of each enumeration member (the `r` field of the
candidate list in `getClosestAspectRatio`, `services/geminiService.ts`). -/
def ratioOf : AspectRatio → ℚ
  | AspectRatio.SQUARE => 1
  | AspectRatio.PORTRAIT_3_4 => 3 / 4
  | AspectRatio.LANDSCAPE_4_3 => 4 / 3
  | AspectRatio.PORTRAIT_9_16 => 9 / 16
  | AspectRatio.LANDSCAPE_16_9 => 16 / 9

/-- Declaration index of each `AspectRatio` member in the `enum` of
`types.ts` (also the order of the candidate list in
`getClosestAspectRatio`). -/
def declIdx : AspectRatio → ℕ
  | AspectRatio.SQUARE => 0
  | AspectRatio.PORTRAIT_3_4 => 1
  | AspectRatio.LANDSCAPE_4_3 => 2
  | AspectRatio.PORTRAIT_9_16 => 3
  | AspectRatio.LANDSCAPE_16_9 => 4

/-- `getClosestAspectRatio` from `services/geminiService.ts`: computes
`ratio = width / height` and reduces the candidate list with
"strictly closer wins", starting from the first candidate `(1, SQUARE)`
(JS `Array.reduce` with no seed).  JS float arithmetic is modelled by exact
rational arithmetic. -/
def getClosestAspectRatio (width height : ℚ) : AspectRatio :=
  let ratio := width / height
  (List.foldl
    (fun prev curr => if |curr.1 - ratio| < |prev.1 - ratio| then curr else prev)
    ((1 : ℚ), AspectRatio.SQUARE)
    [((3 : ℚ) / 4, AspectRatio.PORTRAIT_3_4), ((4 : ℚ) / 3, AspectRatio.LANDSCAPE_4_3),
     ((9 : ℚ) / 16, AspectRatio.PORTRAIT_9_16), ((16 : ℚ) / 9, AspectRatio.LANDSCAPE_16_9)]).2

/-- The custom-size branch of `handleGenerate` in `components/Generator.tsx`
(lines 91-94): `maxDim > 2048 → 4K`, `maxDim > 1024 → 2K`, otherwise `1K`. -/
def customSizeTier (customWidth customHeight : ℕ) : ImageSize :=
  let maxDim := max customWidth customHeight
  if maxDim > 2048 then ImageSize.K4
  else if maxDim > 1024 then ImageSize.K2
  else ImageSize.K1

/-- The extracted-dimensions branch of `handleGenerate` in
`components/Generator.tsx` (lines 100-108): `maxDim > 2048 → 4K`,
`maxDim > 1024 → 2K`, and otherwise `finalSize` keeps the previously
selected `size` state (there is no `else` in the source). -/
def extractedSizeTier (size : ImageSize) (w h : ℕ) : ImageSize :=
  let maxDim := max w h
  if maxDim > 2048 then ImageSize.K4
  else if maxDim > 1024 then ImageSize.K2
  else size

/-- `HistoryItem` from `types.ts`.  The source's `id` is
`Date.now().toString()`; since `Nat.toString` is injective, the id is
modelled directly as the `ℕ` value of the clock. -/
structure HistoryItem : Type where
  id : ℕ
  type : HistoryType
  base64 : String
  prompt : String
  timestamp : ℕ
  metadata : String
deriving DecidableEq

/-- `SavedPrompt` from `types.ts` (`savePrompt` never sets `tags`). -/
structure SavedPrompt : Type where
  id : ℕ
  text : String
  timestamp : ℕ
  tags : Option (List String)
deriving DecidableEq

/-- The browser `localStorage`, restricted to the two keys the
`storageService.ts` module uses: `lumina_history_v1` (field `history`) and
`lumina_saved_prompts_v1` (field `savedPrompts`).  `none` models an absent
key (`removeItem` / never written); `some l` models the key holding the
JSON serialization of `l`. -/
structure Store : Type where
  history : Option (List HistoryItem)
  savedPrompts : Option (List SavedPrompt)
deriving DecidableEq

/-- A store in which neither key has ever been written. -/
def emptyStore : Store := { history := none, savedPrompts := none }

/-- `MAX_ITEMS` from `storageService.ts`. -/
def MAX_ITEMS : ℕ := 30

/-- `getHistory` from `storageService.ts`: reads the history key and parses
it, returning `[]` when the key is absent (or unreadable). -/
def getHistory (st : Store) : List HistoryItem :=
  match st.history with
  | some l => l
  | none => []

/-- `getSavedPrompts` from `storageService.ts`: reads the saved-prompts key,
returning `[]` when the key is absent (or unreadable). -/
def getSavedPrompts (st : Store) : List SavedPrompt :=
  match st.savedPrompts with
  | some l => l
  | none => []

/-- The `HistoryItem` that `addToHistory` constructs at clock value `now`
(`id: Date.now().toString()`, `timestamp: Date.now()`). -/
def mkHistoryItem (now : ℕ) (type : HistoryType) (base64 prompt metadata : String) :
    HistoryItem :=
  { id := now, type := type, base64 := base64, prompt := prompt,
    timestamp := now, metadata := metadata }

/-- `addToHistory` from `storageService.ts`.  `cw` is the quota oracle for
`localStorage.setItem` on the history key: `cw l = true` means writing the
serialization of `l` succeeds, `false` means it throws a quota error.  `now`
is the clock at the first `Date.now()` calls and `now2` the clock at the
`Date.now()` calls inside the quota fallback.  On a failed first write the
fallback (guarded by `current.length > 5`) writes the newest half of the old
collection and then retries the addition once; all failures are caught, so
the function is total. -/
def addToHistory (cw : List HistoryItem → Bool) (now now2 : ℕ) (type : HistoryType)
    (base64 prompt metadata : String) (st : Store) : Store :=
  let newItem := mkHistoryItem now type base64 prompt metadata
  let currentHistory := getHistory st
  let updatedHistory := (newItem :: currentHistory).take MAX_ITEMS
  if cw updatedHistory then { st with history := some updatedHistory }
  else
    let current := getHistory st
    if current.length > 5 then
      let half := current.take (current.length / 2)
      if cw half then
        let retryHistory := mkHistoryItem now2 type base64 prompt metadata :: half
        if cw retryHistory then { st with history := some retryHistory }
        else { st with history := some half }
      else st
    else st

/-- Instrumented `addToHistory`: the same control flow, additionally
returning the list of values attempted to be written to the history key via
`localStorage.setItem`, in order (each attempt is recorded whether or not
the oracle lets it succeed). -/
def addToHistoryTr (cw : List HistoryItem → Bool) (now now2 : ℕ) (type : HistoryType)
    (base64 prompt metadata : String) (st : Store) : Store × List (List HistoryItem) :=
  let newItem := mkHistoryItem now type base64 prompt metadata
  let currentHistory := getHistory st
  let updatedHistory := (newItem :: currentHistory).take MAX_ITEMS
  if cw updatedHistory then ({ st with history := some updatedHistory }, [updatedHistory])
  else
    let current := getHistory st
    if current.length > 5 then
      let half := current.take (current.length / 2)
      if cw half then
        let retryHistory := mkHistoryItem now2 type base64 prompt metadata :: half
        if cw retryHistory then
          ({ st with history := some retryHistory }, [updatedHistory, half, retryHistory])
        else ({ st with history := some half }, [updatedHistory, half, retryHistory])
      else (st, [updatedHistory, half])
    else (st, [updatedHistory])

/-- `deleteHistoryItem` from `storageService.ts` (the write is inside a
`try`, so a failing write leaves the store unchanged). -/
def deleteHistoryItem (cw : List HistoryItem → Bool) (id : ℕ) (st : Store) : Store :=
  let history := (getHistory st).filter (fun item => item.id ≠ id)
  if cw history then { st with history := some history } else st

/-- `clearAllHistory` from `storageService.ts`: `localStorage.removeItem`. -/
def clearAllHistory (st : Store) : Store :=
  { st with history := none }

/-- The `SavedPrompt` that `savePrompt` constructs at clock value `now`. -/
def mkSavedPrompt (now : ℕ) (text : String) : SavedPrompt :=
  { id := now, text := text, timestamp := now, tags := none }

/-- `savePrompt` from `storageService.ts`: prepends a fresh prompt, with no
capacity bound; `cps` is the quota oracle for the saved-prompts key. -/
def savePrompt (cps : List SavedPrompt → Bool) (now : ℕ) (text : String) (st : Store) :
    Store :=
  let newPrompt := mkSavedPrompt now text
  let current := getSavedPrompts st
  let updated := newPrompt :: current
  if cps updated then { st with savedPrompts := some updated } else st

/-- `deleteSavedPrompt` from `storageService.ts`. -/
def deleteSavedPrompt (cps : List SavedPrompt → Bool) (id : ℕ) (st : Store) : Store :=
  let current := (getSavedPrompts st).filter (fun p => p.id ≠ id)
  if cps current then { st with savedPrompts := some current } else st

/-- JS `\s` (the whitespace characters relevant to the source's regexes;
the exotic Unicode space characters never occur in the modelled inputs). -/
def jsWs (c : Char) : Bool :=
  c == ' ' || c == '\t' || c == '\n' || c == '\r' || c == '\x0b' || c == '\x0c'

/-- Case-insensitive literal matching at the head of a list (JS `/i` on the
ASCII literals used by the source): `pat` is given lowercase. -/
def ciMatches : List Char → List Char → Bool
  | [], _ => true
  | _ :: _, [] => false
  | p :: ps, c :: cs => p == c.toLower && ciMatches ps cs

/-- Strip leading and trailing whitespace, as JS `String.prototype.trim`. -/
def myTrim (l : List Char) : List Char :=
  ((l.dropWhile jsWs).reverse.dropWhile jsWs).reverse

/-- The ways the regex piece `\*\*?` can match at the head of a list, in the
engine's backtracking order (two stars preferred, at least one required). -/
def starsOpt : List Char → List ℕ
  | '*' :: '*' :: _ => [2, 1]
  | '*' :: _ => [1]
  | _ => []

/-- The ways the regex piece `:?` can match at the head of a list, in the
engine's backtracking order (colon preferred). -/
def colonOpts : List Char → List ℕ
  | ':' :: _ => [1, 0]
  | _ => [0]

/-- Lengths the regex piece `\s*` can take at the head of a list, in the
engine's backtracking order (greedy: longest first). -/
def wsOpts (l : List Char) : List ℕ :=
  (List.range ((l.takeWhile jsWs).length + 1)).reverse

/-- `\*\*?` followed by the (lowercase) keyword `kw`, at the head of `l`
(used for the `\*\*?Style` / `\*\*?Options` lookahead alternatives). -/
def startsStarKw (kw : List Char) (l : List Char) : Bool :=
  match l with
  | '*' :: '*' :: t => ciMatches kw t
  | '*' :: t => ciMatches kw t
  | _ => false

/-- The lookahead `(?=\n\s*(\*\*?Style|\*\*?Options|---|$))` of the primary
"Enhanced Prompt" regex in `components/ChatInterface` (`src/unnamed/part_001`
line 215), tested at the head of `l`: a newline, then any whitespace, then an
emphasized `Style`/`Options` label, a `---`, or the end of the input. -/
def stopOK (l : List Char) : Bool :=
  match l with
  | '\n' :: t =>
    let r := t.dropWhile jsWs
    r.isEmpty || startsStarKw ['s', 't', 'y', 'l', 'e'] r ||
      startsStarKw ['o', 'p', 't', 'i', 'o', 'n', 's'] r || r.take 3 == ['-', '-', '-']
  | _ => false

/-- Index (from the head of `l`) of the first position where `stopOK` holds,
if any. -/
def firstStopIdx : List Char → Option ℕ
  | [] => none
  | l@(_ :: t) => if stopOK l then some 0 else (firstStopIdx t).map (· + 1)

/-- The literal `enhanced prompt`, lowercase. -/
def epLit : List Char :=
  ['e', 'n', 'h', 'a', 'n', 'c', 'e', 'd', ' ', 'p', 'r', 'o', 'm', 'p', 't']

/-- One attempt of the primary regex
`/\*\*?Enhanced Prompt:?\*\*?\s*([\s\S]+?)(?=\n\s*(\*\*?Style|\*\*?Options|---|$))/i`
anchored at the head of `l`: the label parts are tried in the engine's
backtracking order, and the lazy capture takes the least nonempty extent
whose end satisfies the lookahead. -/
def tryEnhancedAt (l : List Char) : Option (List Char) :=
  (starsOpt l).findSome? fun n1 =>
    let r1 := l.drop n1
    if ciMatches epLit r1 then
      let r2 := r1.drop 15
      (colonOpts r2).findSome? fun nc =>
        let r3 := r2.drop nc
        (starsOpt r3).findSome? fun n2 =>
          let r4 := r3.drop n2
          (wsOpts r4).findSome? fun k =>
            let suffix := r4.drop k
            match firstStopIdx (suffix.drop 1) with
            | some o => some (suffix.take (o + 1))
            | none => none
    else none

/-- First-match scan of the primary "Enhanced Prompt" regex over the whole
input (JS regexes try successive start positions left to right). -/
def scanEnhanced : List Char → Option (List Char)
  | [] => none
  | l@(_ :: t) => (tryEnhancedAt l).orElse fun _ => scanEnhanced t

/-- Index of the first case-insensitive occurrence of `enhanced prompt`. -/
def findEpIdx : List Char → Option ℕ
  | [] => none
  | l@(_ :: t) => if ciMatches epLit l then some 0 else (findEpIdx t).map (· + 1)

/-- The fallback `text.split(/Enhanced Prompt:?/i)[1]` of the extraction in
`components/ChatInterface` (`src/unnamed/part_001` lines 220-221): the
segment of `l` strictly between the end of the first occurrence of the label
(with its optional colon) and the start of the second occurrence, or
everything after the first occurrence when there is no second; `none` when
the label does not occur (JS `[1]` is `undefined`). -/
def splitTailEnhanced (l : List Char) : Option (List Char) :=
  match findEpIdx l with
  | none => none
  | some i =>
    let after0 := l.drop (i + 15)
    let after := if after0.take 1 == [':'] then after0.drop 1 else after0
    match findEpIdx after with
    | none => some after
    | some j => some (after.take j)

/-- The "Use Enhanced Prompt" extraction of `components/ChatInterface`
(`src/unnamed/part_001` lines 215-222): primary regex capture, trimmed;
else the split fallback, trimmed, where an empty (JS falsy) segment leaves
the result empty; `[]` ("no result") when neither strategy matches. -/
def extractEnhancedPromptL (l : List Char) : List Char :=
  match scanEnhanced l with
  | some cap => myTrim cap
  | none =>
    match splitTailEnhanced l with
    | some seg => if seg.isEmpty then [] else myTrim seg
    | none => []

/-- String-level wrapper of `extractEnhancedPromptL`. -/
def extractEnhancedPrompt (s : String) : String :=
  String.mk (extractEnhancedPromptL s.data)

/-- The literal `style suggestions`, lowercase. -/
def ssLit : List Char :=
  ['s', 't', 'y', 'l', 'e', ' ', 's', 'u', 'g', 'g', 'e', 's', 't', 'i', 'o', 'n', 's']

/-- Index of the first occurrence of the literal `---`, or the length of the
list when there is none (the extent of the lazy capture `([\s\S]*?)(?=$|---)`). -/
def hrIdx : List Char → ℕ
  | [] => 0
  | l@(_ :: t) => if l.take 3 == ['-', '-', '-'] then 0 else hrIdx t + 1

/-- One attempt of `/(?:\*\*?Style Suggestions:?\*\*?)([\s\S]*?)(?=$|---)/i`
(`extractStyles`, `src/unnamed/part_001` line 107) anchored at the head of
`l`: once the label matches, the lazy capture runs to the first `---` or to
the end of the input (the `$` alternative always eventually succeeds). -/
def tryStyleAt (l : List Char) : Option (List Char) :=
  (starsOpt l).findSome? fun n1 =>
    let r1 := l.drop n1
    if ciMatches ssLit r1 then
      let r2 := r1.drop 17
      (colonOpts r2).findSome? fun nc =>
        let r3 := r2.drop nc
        (starsOpt r3).findSome? fun n2 =>
          let r4 := r3.drop n2
          some (r4.take (hrIdx r4))
    else none

/-- First-match scan of the "Style Suggestions" regex over the input. -/
def scanStyle : List Char → Option (List Char)
  | [] => none
  | l@(_ :: t) => (tryStyleAt l).orElse fun _ => scanStyle t

/-- The bullet-marker character class `[\*\-•\d\.]` of `extractStyles`. -/
def markerChar (c : Char) : Bool :=
  c == '*' || c == '-' || c == '•' || c.isDigit || c == '.'

/-- `extractStyles` from `components/ChatInterface` (`src/unnamed/part_001`
lines 106-115): capture the Style Suggestions block, split it on newlines,
trim each line, keep the lines whose first character is in the marker class,
and strip each kept line's leading run of marker characters plus following
whitespace (`line.replace(/^[\*\-•\d\.]+\s*/, '')`). -/
def extractStylesL (l : List Char) : List (List Char) :=
  match scanStyle l with
  | none => []
  | some block =>
    (((block.splitOn '\n').map myTrim).filter
        (fun line =>
          match line.head? with
          | some c => markerChar c
          | none => false)).map
      (fun line => (line.dropWhile markerChar).dropWhile jsWs)

/-- String-level wrapper of `extractStylesL`. -/
def extractStyles (s : String) : List String :=
  (extractStylesL s.data).map String.mk

/-- Parse a run of decimal digits (JS `parseInt` on the captured digits). -/
def digitsToNat (l : List Char) : ℕ :=
  l.foldl (fun a c => 10 * a + (c.toNat - '0'.toNat)) 0

/-- The `(?:x|by)` separator alternatives of the dimension regex, with `/i`:
consume the separator at the head of `r`, if present. -/
def sepSplit : List Char → Option (List Char)
  | 'x' :: t => some t
  | 'X' :: t => some t
  | 'b' :: 'y' :: t => some t
  | 'b' :: 'Y' :: t => some t
  | 'B' :: 'y' :: t => some t
  | 'B' :: 'Y' :: t => some t
  | _ => none

/-- One attempt of `/(\d{3,5})\s*(?:x|by)\s*(\d{3,5})/i`
(`extractDimensionsFromPrompt`, `services/geminiService.ts` line 54) anchored
at the head of `l`.  The first `\d{3,5}` must consume the whole digit run
starting here (a digit left over defeats every backtracking length, since
the next piece cannot start with a digit), so it succeeds exactly when that
run has length 3 to 5; the second `\d{3,5}` greedily takes the first
`min(run, 5)` digits of the run after the separator and needs no lookahead. -/
def matchDimAt (l : List Char) : Option (ℕ × ℕ) :=
  let d1 := l.takeWhile Char.isDigit
  if 3 ≤ d1.length ∧ d1.length ≤ 5 then
    let r1 := (l.dropWhile Char.isDigit).dropWhile jsWs
    match sepSplit r1 with
    | some r2 =>
      let d2 := (r2.dropWhile jsWs).takeWhile Char.isDigit
      if 3 ≤ d2.length then some (digitsToNat d1, digitsToNat (d2.take 5))
      else none
    | none => none
  else none

/-- First-match scan of the dimension regex over the input. -/
def scanDim : List Char → Option (ℕ × ℕ)
  | [] => none
  | l@(_ :: t) => (matchDimAt l).orElse fun _ => scanDim t

/-- `extractDimensionsFromPrompt` from `services/geminiService.ts` (lines
52-59): the first match of the dimension pattern as a `(width, height)`
pair, or `none`. -/
def extractDimensionsFromPrompt (s : String) : Option (ℕ × ℕ) :=
  scanDim s.data

/-- Declarative reading of the separator alternatives (`x` or `by`, either
case). -/
def sepOK (sep : List Char) : Prop :=
  sep = ['x'] ∨ sep = ['X'] ∨ sep = ['b', 'y'] ∨ sep = ['b', 'Y'] ∨
    sep = ['B', 'y'] ∨ sep = ['B', 'Y']

/-- Declarative reading of the dimension pattern, following the wording of
the specification: somewhere in the text, a 3-to-5-digit number, optional
whitespace, the separator `x`/`by` (case-insensitive), optional whitespace,
and a 3-to-5-digit number, with values `w` and `h`. -/
def DimMatch (l : List Char) (w h : ℕ) : Prop :=
  ∃ pre d1 w1 sep w2 d2 post,
    l = pre ++ (d1 ++ (w1 ++ (sep ++ (w2 ++ (d2 ++ post))))) ∧
    (∀ c ∈ d1, c.isDigit = true) ∧ 3 ≤ d1.length ∧ d1.length ≤ 5 ∧
    (∀ c ∈ w1, jsWs c = true) ∧ sepOK sep ∧ (∀ c ∈ w2, jsWs c = true) ∧
    (∀ c ∈ d2, c.isDigit = true) ∧ 3 ≤ d2.length ∧ d2.length ≤ 5 ∧
    w = digitsToNat d1 ∧ h = digitsToNat d2

/-- Positioned reading of the dimension pattern: an occurrence that starts
right after the prefix `pre` of the text, with values `w` and `h` (so
`DimMatch l w h` holds exactly when `DimMatchFrom pre l w h` holds for some
`pre`; `pre.length` is the occurrence's start position). -/
def DimMatchFrom (pre l : List Char) (w h : ℕ) : Prop :=
  ∃ d1 w1 sep w2 d2 post,
    l = pre ++ (d1 ++ (w1 ++ (sep ++ (w2 ++ (d2 ++ post))))) ∧
    (∀ c ∈ d1, c.isDigit = true) ∧ 3 ≤ d1.length ∧ d1.length ≤ 5 ∧
    (∀ c ∈ w1, jsWs c = true) ∧ sepOK sep ∧ (∀ c ∈ w2, jsWs c = true) ∧
    (∀ c ∈ d2, c.isDigit = true) ∧ 3 ≤ d2.length ∧ d2.length ≤ 5 ∧
    w = digitsToNat d1 ∧ h = digitsToNat d2

/-- The collection that the first `localStorage.setItem` of `addToHistory`
attempts to write: the new item prepended and the result cut to
`MAX_ITEMS`. -/
def attemptedWrite (now : ℕ) (ty : HistoryType) (b p m : String) (st : Store) :
    List HistoryItem :=
  (mkHistoryItem now ty b p m :: getHistory st).take MAX_ITEMS

/-- The newest half kept by the quota fallback of `addToHistory`:
`current.slice(0, Math.floor(current.length / 2))` of the most-recent-first
collection. -/
def newestHalf (st : Store) : List HistoryItem :=
  (getHistory st).take ((getHistory st).length / 2)

/-- The arguments of one `addToHistory` call: the clock values seen by its
two groups of `Date.now()` calls and the payload. -/
structure AddReq : Type where
  now : ℕ
  now2 : ℕ
  type : HistoryType
  base64 : String
  prompt : String
  metadata : String

/-- A sequence of `addToHistory` calls. -/
def runAdds (cw : List HistoryItem → Bool) (reqs : List AddReq) (st : Store) : Store :=
  reqs.foldl
    (fun st r => addToHistory cw r.now r.now2 r.type r.base64 r.prompt r.metadata st) st

/-- A sequence of `savePrompt` calls (clock value and text for each). -/
def runSaves (cps : List SavedPrompt → Bool) (reqs : List (ℕ × String)) (st : Store) :
    Store :=
  reqs.foldl (fun st r => savePrompt cps r.1 r.2 st) st

/-- A sequence of always-successful `addToHistory` calls with a shared
payload, one per clock value. -/
def addTimes (ts : List ℕ) (ty : HistoryType) (b p m : String) (st : Store) : Store :=
  ts.foldl (fun st t => addToHistory (fun _ => true) t t ty b p m st) st

/-- Concrete quota oracle for exercising the fallback: a write succeeds only
when at most 3 items are serialized. -/
def cwSmall : List HistoryItem → Bool := fun l => decide (l.length ≤ 3)

/-- A concrete store whose history holds six items. -/
def stSix : Store :=
  { history := some
      [mkHistoryItem 15 HistoryType.GENERATED "b" "p" "m",
       mkHistoryItem 14 HistoryType.GENERATED "b" "p" "m",
       mkHistoryItem 13 HistoryType.GENERATED "b" "p" "m",
       mkHistoryItem 12 HistoryType.GENERATED "b" "p" "m",
       mkHistoryItem 11 HistoryType.GENERATED "b" "p" "m",
       mkHistoryItem 10 HistoryType.GENERATED "b" "p" "m"],
    savedPrompts := none }

/-- The clock values 1..30 (used to feed 30 additions after a first one). -/
def laterTimes : List ℕ := (List.range 30).map (· + 1)

/-- C2 counterexample: in the extracted-dimensions branch, a maximal
dimension of 512 does not force the 1K tier — with the 2K tier previously
selected, the branch keeps 2K, contradicting the claim that the tier is
determined solely by `maxDim` with `maxDim ≤ 1024` yielding 1K. -/
theorem extractedSizeTier_512_counterexample :
    extractedSizeTier ImageSize.K2 512 512 = ImageSize.K2 ∧
    extractedSizeTier ImageSize.K2 512 512 ≠ ImageSize.K1 := by
  constructor
  · rfl
  · decide

/-- C2 amended: with explicit dimensions, the `> 2048 → 4K` and
`> 1024 → 2K` thresholds on `max(width, height)` hold in both branches of
`handleGenerate`; when `maxDim ≤ 1024` the custom-size branch selects 1K,
while the extracted-dimensions branch keeps the previously selected size
unchanged.  The claim's boundary instances hold for the custom-size
branch. -/
theorem sizeTier_policy_amended (w h : ℕ) (size : ImageSize) :
    (2048 < max w h →
      customSizeTier w h = ImageSize.K4 ∧ extractedSizeTier size w h = ImageSize.K4) ∧
    (1024 < max w h ∧ max w h ≤ 2048 →
      customSizeTier w h = ImageSize.K2 ∧ extractedSizeTier size w h = ImageSize.K2) ∧
    (max w h ≤ 1024 →
      customSizeTier w h = ImageSize.K1 ∧ extractedSizeTier size w h = size) ∧
    customSizeTier 4096 4096 = ImageSize.K4 ∧
    customSizeTier 1500 1500 = ImageSize.K2 ∧
    customSizeTier 512 512 = ImageSize.K1 ∧
    customSizeTier 1024 1024 = ImageSize.K1 ∧
    customSizeTier 1025 1025 = ImageSize.K2 ∧
    customSizeTier 2048 2048 = ImageSize.K2 ∧
    customSizeTier 2049 2049 = ImageSize.K4 := by
  refine ⟨fun hgt => ⟨?_, ?_⟩, fun hmid => ⟨?_, ?_⟩, fun hle => ⟨?_, ?_⟩,
    rfl, rfl, rfl, rfl, rfl, rfl, rfl⟩ <;>
    simp only [customSizeTier, extractedSizeTier] <;>
    split_ifs <;> first | rfl | (exfalso; omega)

/-- C2 witness at `maxDim = 4096`. -/
theorem sizeTier_policy_amended_witness :
    customSizeTier 4096 100 = ImageSize.K4 ∧ extractedSizeTier ImageSize.K1 4096 100 = ImageSize.K4 :=
  (sizeTier_policy_amended 4096 100 ImageSize.K1).1 (by norm_num)

/-- C10: every history operation leaves the saved-prompts key unchanged and
reads the store only through the history key, and symmetrically every
saved-prompt operation leaves the history key unchanged and reads only the
saved-prompts key. -/
theorem storage_frame_property :
    (∀ cw now now2 ty b p m st,
      (addToHistory cw now now2 ty b p m st).savedPrompts = st.savedPrompts) ∧
    (∀ cw id st, (deleteHistoryItem cw id st).savedPrompts = st.savedPrompts) ∧
    (∀ st, (clearAllHistory st).savedPrompts = st.savedPrompts) ∧
    (∀ st sp, getHistory { st with savedPrompts := sp } = getHistory st) ∧
    (∀ cw now now2 ty b p m st sp,
      (addToHistory cw now now2 ty b p m { st with savedPrompts := sp }).history =
        (addToHistory cw now now2 ty b p m st).history) ∧
    (∀ cps now text st, (savePrompt cps now text st).history = st.history) ∧
    (∀ cps id st, (deleteSavedPrompt cps id st).history = st.history) ∧
    (∀ st hh, getSavedPrompts { st with history := hh } = getSavedPrompts st) ∧
    (∀ cps now text st hh,
      (savePrompt cps now text { st with history := hh }).savedPrompts =
        (savePrompt cps now text st).savedPrompts) := by
  refine ⟨?_, ?_, ?_, ?_, ?_, ?_, ?_, ?_, ?_⟩ <;> intros <;>
    simp only [addToHistory, deleteHistoryItem, clearAllHistory, getHistory,
      savePrompt, deleteSavedPrompt, getSavedPrompts] <;>
    split_ifs <;> rfl

/-- Distance comparison: left of the midpoint, the smaller anchor is at
least as close. -/
theorem abs_left_le {a b t : ℚ} (hab : a < b) (ht : 2 * t ≤ a + b) :
    |a - t| ≤ |b - t| := by
  rcases abs_cases (a - t) with ⟨e1, s1⟩ | ⟨e1, s1⟩ <;>
    rcases abs_cases (b - t) with ⟨e2, s2⟩ | ⟨e2, s2⟩ <;>
    rw [e1, e2] <;> linarith

/-- Distance comparison: strictly left of the midpoint, the smaller anchor
is strictly closer. -/
theorem abs_left_lt {a b t : ℚ} (hab : a < b) (ht : 2 * t < a + b) :
    |a - t| < |b - t| := by
  rcases abs_cases (a - t) with ⟨e1, s1⟩ | ⟨e1, s1⟩ <;>
    rcases abs_cases (b - t) with ⟨e2, s2⟩ | ⟨e2, s2⟩ <;>
    rw [e1, e2] <;> linarith

/-- Distance comparison: right of the midpoint, the larger anchor is at
least as close. -/
theorem abs_right_le {a b t : ℚ} (hab : a < b) (ht : a + b ≤ 2 * t) :
    |b - t| ≤ |a - t| := by
  rcases abs_cases (a - t) with ⟨e1, s1⟩ | ⟨e1, s1⟩ <;>
    rcases abs_cases (b - t) with ⟨e2, s2⟩ | ⟨e2, s2⟩ <;>
    rw [e1, e2] <;> linarith

/-- Distance comparison: strictly right of the midpoint, the larger anchor
is strictly closer. -/
theorem abs_right_lt {a b t : ℚ} (hab : a < b) (ht : a + b < 2 * t) :
    |b - t| < |a - t| := by
  rcases abs_cases (a - t) with ⟨e1, s1⟩ | ⟨e1, s1⟩ <;>
    rcases abs_cases (b - t) with ⟨e2, s2⟩ | ⟨e2, s2⟩ <;>
    rw [e1, e2] <;> linarith

/-- Below the 3:4 / 9:16 midpoint the fold returns 9:16. -/
theorem closest_eq_region1 (w h : ℚ) (hr : w / h < 21 / 32) :
    getClosestAspectRatio w h = AspectRatio.PORTRAIT_9_16 := by
  have e1 : |(3 : ℚ) / 4 - w / h| < |(1 : ℚ) - w / h| :=
    abs_left_lt (by norm_num) (by linarith)
  have e2 : ¬ |(4 : ℚ) / 3 - w / h| < |(3 : ℚ) / 4 - w / h| :=
    not_lt.mpr (abs_left_le (by norm_num) (by linarith))
  have e3 : |(9 : ℚ) / 16 - w / h| < |(3 : ℚ) / 4 - w / h| :=
    abs_left_lt (by norm_num) (by linarith)
  have e4 : ¬ |(16 : ℚ) / 9 - w / h| < |(9 : ℚ) / 16 - w / h| :=
    not_lt.mpr (abs_left_le (by norm_num) (by linarith))
  simp only [getClosestAspectRatio, List.foldl]
  rw [if_pos e1, if_neg e2, if_pos e3, if_neg e4]

/-- Between the 3:4 / 9:16 midpoint and the 1:1 / 3:4 midpoint the fold
returns 3:4 (including the tie at the lower midpoint, where 3:4 is declared
before 9:16). -/
theorem closest_eq_region2 (w h : ℚ) (hr1 : 21 / 32 ≤ w / h) (hr2 : w / h < 7 / 8) :
    getClosestAspectRatio w h = AspectRatio.PORTRAIT_3_4 := by
  have e1 : |(3 : ℚ) / 4 - w / h| < |(1 : ℚ) - w / h| :=
    abs_left_lt (by norm_num) (by linarith)
  have e2 : ¬ |(4 : ℚ) / 3 - w / h| < |(3 : ℚ) / 4 - w / h| :=
    not_lt.mpr (abs_left_le (by norm_num) (by linarith))
  have e3 : ¬ |(9 : ℚ) / 16 - w / h| < |(3 : ℚ) / 4 - w / h| :=
    not_lt.mpr (abs_right_le (by norm_num) (by linarith))
  have e4 : ¬ |(16 : ℚ) / 9 - w / h| < |(3 : ℚ) / 4 - w / h| :=
    not_lt.mpr (abs_left_le (by norm_num) (by linarith))
  simp only [getClosestAspectRatio, List.foldl]
  rw [if_pos e1, if_neg e2, if_neg e3, if_neg e4]

/-- Between the 1:1 / 3:4 midpoint and the 1:1 / 4:3 midpoint the fold
returns 1:1 (including the ties at both midpoints, where 1:1 is declared
first). -/
theorem closest_eq_region3 (w h : ℚ) (hr1 : 7 / 8 ≤ w / h) (hr2 : w / h ≤ 7 / 6) :
    getClosestAspectRatio w h = AspectRatio.SQUARE := by
  have e1 : ¬ |(3 : ℚ) / 4 - w / h| < |(1 : ℚ) - w / h| :=
    not_lt.mpr (abs_right_le (by norm_num) (by linarith))
  have e2 : ¬ |(4 : ℚ) / 3 - w / h| < |(1 : ℚ) - w / h| :=
    not_lt.mpr (abs_left_le (by norm_num) (by linarith))
  have e3 : ¬ |(9 : ℚ) / 16 - w / h| < |(1 : ℚ) - w / h| :=
    not_lt.mpr (abs_right_le (by norm_num) (by linarith))
  have e4 : ¬ |(16 : ℚ) / 9 - w / h| < |(1 : ℚ) - w / h| :=
    not_lt.mpr (abs_left_le (by norm_num) (by linarith))
  simp only [getClosestAspectRatio, List.foldl]
  rw [if_neg e1, if_neg e2, if_neg e3, if_neg e4]

/-- Between the 1:1 / 4:3 midpoint and the 4:3 / 16:9 midpoint the fold
returns 4:3 (including the tie at the upper midpoint, where 4:3 is declared
before 16:9). -/
theorem closest_eq_region4 (w h : ℚ) (hr1 : 7 / 6 < w / h) (hr2 : w / h ≤ 14 / 9) :
    getClosestAspectRatio w h = AspectRatio.LANDSCAPE_4_3 := by
  have e1 : ¬ |(3 : ℚ) / 4 - w / h| < |(1 : ℚ) - w / h| :=
    not_lt.mpr (abs_right_le (by norm_num) (by linarith))
  have e2 : |(4 : ℚ) / 3 - w / h| < |(1 : ℚ) - w / h| :=
    abs_right_lt (by norm_num) (by linarith)
  have e3 : ¬ |(9 : ℚ) / 16 - w / h| < |(4 : ℚ) / 3 - w / h| :=
    not_lt.mpr (abs_right_le (by norm_num) (by linarith))
  have e4 : ¬ |(16 : ℚ) / 9 - w / h| < |(4 : ℚ) / 3 - w / h| :=
    not_lt.mpr (abs_left_le (by norm_num) (by linarith))
  simp only [getClosestAspectRatio, List.foldl]
  rw [if_neg e1, if_pos e2, if_neg e3, if_neg e4]

/-- Above the 4:3 / 16:9 midpoint the fold returns 16:9. -/
theorem closest_eq_region5 (w h : ℚ) (hr : 14 / 9 < w / h) :
    getClosestAspectRatio w h = AspectRatio.LANDSCAPE_16_9 := by
  have e1 : ¬ |(3 : ℚ) / 4 - w / h| < |(1 : ℚ) - w / h| :=
    not_lt.mpr (abs_right_le (by norm_num) (by linarith))
  have e2 : |(4 : ℚ) / 3 - w / h| < |(1 : ℚ) - w / h| :=
    abs_right_lt (by norm_num) (by linarith)
  have e3 : ¬ |(9 : ℚ) / 16 - w / h| < |(4 : ℚ) / 3 - w / h| :=
    not_lt.mpr (abs_right_le (by norm_num) (by linarith))
  have e4 : |(16 : ℚ) / 9 - w / h| < |(4 : ℚ) / 3 - w / h| :=
    abs_right_lt (by norm_num) (by linarith)
  simp only [getClosestAspectRatio, List.foldl]
  rw [if_neg e1, if_pos e2, if_neg e3, if_pos e4]

/-- C1: for positive `w, h`, `getClosestAspectRatio w h` is a member whose
defining ratio minimizes the absolute difference to `w / h`, and any other
member at the same distance is declared later in the enumeration (so the
first-declared candidate wins ties); moreover the three instances of the
claim hold. -/
theorem getClosestAspectRatio_spec :
    (∀ w h : ℚ, 0 < w → 0 < h →
      (∀ m : AspectRatio,
        |ratioOf (getClosestAspectRatio w h) - w / h| ≤ |ratioOf m - w / h|) ∧
      (∀ m : AspectRatio,
        |ratioOf m - w / h| = |ratioOf (getClosestAspectRatio w h) - w / h| →
          declIdx (getClosestAspectRatio w h) ≤ declIdx m)) ∧
    getClosestAspectRatio 1024 1024 = AspectRatio.SQUARE ∧
    getClosestAspectRatio 1920 1080 = AspectRatio.LANDSCAPE_16_9 ∧
    getClosestAspectRatio 768 1024 = AspectRatio.PORTRAIT_3_4 := by
  refine ⟨?_, closest_eq_region3 1024 1024 (by norm_num) (by norm_num),
    closest_eq_region5 1920 1080 (by norm_num),
    closest_eq_region2 768 1024 (by norm_num) (by norm_num)⟩
  intro w h hw hh
  rcases lt_or_le (w / h) (21 / 32) with hA | hA
  · have f0 : |(9 : ℚ) / 16 - w / h| < |(1 : ℚ) - w / h| :=
      abs_left_lt (by norm_num) (by linarith)
    have f1 : |(9 : ℚ) / 16 - w / h| < |(3 : ℚ) / 4 - w / h| :=
      abs_left_lt (by norm_num) (by linarith)
    have f2 : |(9 : ℚ) / 16 - w / h| < |(4 : ℚ) / 3 - w / h| :=
      abs_left_lt (by norm_num) (by linarith)
    have f3 : |(9 : ℚ) / 16 - w / h| < |(16 : ℚ) / 9 - w / h| :=
      abs_left_lt (by norm_num) (by linarith)
    rw [closest_eq_region1 w h hA]
    constructor
    · intro m
      cases m <;> simp only [ratioOf]
      · exact f0.le
      · exact f1.le
      · exact f2.le
      · exact le_refl _
      · exact f3.le
    · intro m hm
      cases m <;> simp only [ratioOf, declIdx] at hm ⊢
      · exact absurd hm (ne_of_gt f0)
      · exact absurd hm (ne_of_gt f1)
      · exact absurd hm (ne_of_gt f2)
      · exact le_refl _
      · norm_num
  rcases lt_or_le (w / h) (7 / 8) with hB | hB
  · have g0 : |(3 : ℚ) / 4 - w / h| < |(1 : ℚ) - w / h| :=
      abs_left_lt (by norm_num) (by linarith)
    have g1 : |(3 : ℚ) / 4 - w / h| ≤ |(4 : ℚ) / 3 - w / h| :=
      abs_left_le (by norm_num) (by linarith)
    have g2 : |(3 : ℚ) / 4 - w / h| ≤ |(9 : ℚ) / 16 - w / h| :=
      abs_right_le (by norm_num) (by linarith)
    have g3 : |(3 : ℚ) / 4 - w / h| ≤ |(16 : ℚ) / 9 - w / h| :=
      abs_left_le (by norm_num) (by linarith)
    rw [closest_eq_region2 w h hA hB]
    constructor
    · intro m
      cases m <;> simp only [ratioOf]
      · exact g0.le
      · exact le_refl _
      · exact g1
      · exact g2
      · exact g3
    · intro m hm
      cases m <;> simp only [ratioOf, declIdx] at hm ⊢
      · exact absurd hm (ne_of_gt g0)
      · exact le_refl _
      · norm_num
      · norm_num
      · norm_num
  rcases le_or_lt (w / h) (7 / 6) with hC | hC
  · have h1 : |(1 : ℚ) - w / h| ≤ |(3 : ℚ) / 4 - w / h| :=
      abs_right_le (by norm_num) (by linarith)
    have h2 : |(1 : ℚ) - w / h| ≤ |(4 : ℚ) / 3 - w / h| :=
      abs_left_le (by norm_num) (by linarith)
    have h3 : |(1 : ℚ) - w / h| ≤ |(9 : ℚ) / 16 - w / h| :=
      abs_right_le (by norm_num) (by linarith)
    have h4 : |(1 : ℚ) - w / h| ≤ |(16 : ℚ) / 9 - w / h| :=
      abs_left_le (by norm_num) (by linarith)
    rw [closest_eq_region3 w h hB hC]
    constructor
    · intro m
      cases m <;> simp only [ratioOf]
      · exact le_refl _
      · exact h1
      · exact h2
      · exact h3
      · exact h4
    · intro m hm
      cases m <;> simp only [ratioOf, declIdx] at hm ⊢ <;> norm_num
  rcases le_or_lt (w / h) (14 / 9) with hD | hD
  · have k0 : |(4 : ℚ) / 3 - w / h| < |(1 : ℚ) - w / h| :=
      abs_right_lt (by norm_num) (by linarith)
    have k1 : |(4 : ℚ) / 3 - w / h| < |(3 : ℚ) / 4 - w / h| :=
      abs_right_lt (by norm_num) (by linarith)
    have k2 : |(4 : ℚ) / 3 - w / h| ≤ |(9 : ℚ) / 16 - w / h| :=
      abs_right_le (by norm_num) (by linarith)
    have k3 : |(4 : ℚ) / 3 - w / h| ≤ |(16 : ℚ) / 9 - w / h| :=
      abs_left_le (by norm_num) (by linarith)
    rw [closest_eq_region4 w h hC hD]
    constructor
    · intro m
      cases m <;> simp only [ratioOf]
      · exact k0.le
      · exact k1.le
      · exact le_refl _
      · exact k2
      · exact k3
    · intro m hm
      cases m <;> simp only [ratioOf, declIdx] at hm ⊢
      · exact absurd hm (ne_of_gt k0)
      · exact absurd hm (ne_of_gt k1)
      · exact le_refl _
      · norm_num
      · norm_num
  · have m0 : |(16 : ℚ) / 9 - w / h| < |(1 : ℚ) - w / h| :=
      abs_right_lt (by norm_num) (by linarith)
    have m1 : |(16 : ℚ) / 9 - w / h| < |(3 : ℚ) / 4 - w / h| :=
      abs_right_lt (by norm_num) (by linarith)
    have m2 : |(16 : ℚ) / 9 - w / h| < |(4 : ℚ) / 3 - w / h| :=
      abs_right_lt (by norm_num) (by linarith)
    have m3 : |(16 : ℚ) / 9 - w / h| < |(9 : ℚ) / 16 - w / h| :=
      abs_right_lt (by norm_num) (by linarith)
    rw [closest_eq_region5 w h hD]
    constructor
    · intro m
      cases m <;> simp only [ratioOf]
      · exact m0.le
      · exact m1.le
      · exact m2.le
      · exact m3.le
      · exact le_refl _
    · intro m hm
      cases m <;> simp only [ratioOf, declIdx] at hm ⊢
      · exact absurd hm (ne_of_gt m0)
      · exact absurd hm (ne_of_gt m1)
      · exact absurd hm (ne_of_gt m2)
      · exact absurd hm (ne_of_gt m3)
      · exact le_refl _

/-- C1 witness at `(1024, 1024)` against the 16:9 candidate. -/
theorem getClosestAspectRatio_spec_witness :
    |ratioOf (getClosestAspectRatio 1024 1024) - (1024 : ℚ) / 1024| ≤
      |ratioOf AspectRatio.LANDSCAPE_16_9 - (1024 : ℚ) / 1024| :=
  (getClosestAspectRatio_spec.1 1024 1024 (by norm_num) (by norm_num)).1
    AspectRatio.LANDSCAPE_16_9

/-- Truncating before appending on the right does not change a truncation. -/
theorem take_append_take {α : Type} (A C : List α) (n : ℕ) :
    (A ++ C.take n).take n = (A ++ C).take n := by
  rw [List.take_append_eq_append_take, List.take_append_eq_append_take, List.take_take]
  congr 1
  rw [min_eq_left (Nat.sub_le n A.length)]

/-- Reading back a freshly written history value. -/
theorem getHistory_update (st : Store) (l : List HistoryItem) :
    getHistory { st with history := some l } = l := rfl

/-- Reading back a freshly written saved-prompts value. -/
theorem getSavedPrompts_update (st : Store) (l : List SavedPrompt) :
    getSavedPrompts { st with savedPrompts := some l } = l := rfl

/-- The store produced by the instrumented `addToHistory` agrees with
`addToHistory`. -/
theorem addToHistoryTr_fst (cw : List HistoryItem → Bool) (now now2 : ℕ)
    (ty : HistoryType) (b p m : String) (st : Store) :
    (addToHistoryTr cw now now2 ty b p m st).1 = addToHistory cw now now2 ty b p m st := by
  simp only [addToHistoryTr, addToHistory]
  split_ifs <;> rfl

/-- A run of always-successful additions, described in one equation: the
resulting history is the reversed run of new items prepended to the starting
history, truncated to `MAX_ITEMS` (for a starting history within
capacity). -/
theorem addTimes_getHistory (ty : HistoryType) (b p m : String) :
    ∀ (ts : List ℕ) (st : Store), (getHistory st).length ≤ MAX_ITEMS →
      getHistory (addTimes ts ty b p m st) =
        ((ts.reverse.map fun t => mkHistoryItem t ty b p m) ++ getHistory st).take MAX_ITEMS
  | [], st, hle => by
    simp only [addTimes, List.foldl_nil, List.reverse_nil, List.map_nil, List.nil_append]
    exact (List.take_of_length_le hle).symm
  | t :: ts, st, hle => by
    have hstep : getHistory (addToHistory (fun _ => true) t t ty b p m st) =
        (mkHistoryItem t ty b p m :: getHistory st).take MAX_ITEMS := rfl
    have hlen : (getHistory (addToHistory (fun _ => true) t t ty b p m st)).length ≤
        MAX_ITEMS := by
      rw [hstep, List.length_take]
      exact min_le_left _ _
    have ih := addTimes_getHistory ty b p m ts (addToHistory (fun _ => true) t t ty b p m st) hlen
    calc getHistory (addTimes (t :: ts) ty b p m st)
        = getHistory (addTimes ts ty b p m (addToHistory (fun _ => true) t t ty b p m st)) := by
          simp only [addTimes, List.foldl_cons]
      _ = ((ts.reverse.map fun u => mkHistoryItem u ty b p m) ++
            (mkHistoryItem t ty b p m :: getHistory st).take MAX_ITEMS).take MAX_ITEMS := by
          rw [ih, hstep]
      _ = ((ts.reverse.map fun u => mkHistoryItem u ty b p m) ++
            (mkHistoryItem t ty b p m :: getHistory st)).take MAX_ITEMS :=
          take_append_take _ _ _
      _ = (((t :: ts).reverse.map fun u => mkHistoryItem u ty b p m) ++
            getHistory st).take MAX_ITEMS := by
          rw [List.reverse_cons, List.map_append]
          simp only [List.map_cons, List.map_nil, List.append_assoc, List.singleton_append]

/-- C3: a successful `addToHistory` stores the new item first (the next
`getHistory` returns it at the head, most-recent-first) and truncates to the
capacity of 30; starting from an empty store, after 31 successful additions
at pairwise-distinct clock values exactly 30 items remain and the
first-added item is gone. -/
theorem addToHistory_roundtrip_eviction :
    (∀ cw now now2 ty b p m (st : Store),
      cw (attemptedWrite now ty b p m st) = true →
      getHistory (addToHistory cw now now2 ty b p m st) = attemptedWrite now ty b p m st ∧
      (getHistory (addToHistory cw now now2 ty b p m st)).head? =
        some (mkHistoryItem now ty b p m)) ∧
    (∀ (t0 : ℕ) (rest : List ℕ) ty b p m,
      (t0 :: rest).Nodup → rest.length = 30 →
      (getHistory (addTimes (t0 :: rest) ty b p m emptyStore)).length = 30 ∧
      mkHistoryItem t0 ty b p m ∉ getHistory (addTimes (t0 :: rest) ty b p m emptyStore)) := by
  constructor
  · intro cw now now2 ty b p m st hok
    have e : getHistory (addToHistory cw now now2 ty b p m st) =
        attemptedWrite now ty b p m st := by
      simp only [addToHistory, attemptedWrite] at hok ⊢
      rw [if_pos hok]
      rfl
    refine ⟨e, ?_⟩
    rw [e]
    simp only [attemptedWrite, MAX_ITEMS, List.take_succ_cons, List.head?_cons]
  · intro t0 rest ty b p m hnd hlen
    have hfin : getHistory (addTimes (t0 :: rest) ty b p m emptyStore) =
        (rest.reverse.map fun u => mkHistoryItem u ty b p m) := by
      have h0 : (getHistory emptyStore).length ≤ MAX_ITEMS := by
        simp [getHistory, emptyStore]
      rw [addTimes_getHistory ty b p m (t0 :: rest) emptyStore h0]
      have : getHistory emptyStore = [] := rfl
      rw [this, List.append_nil, List.reverse_cons, List.map_append]
      have hlen30 : (rest.reverse.map fun u => mkHistoryItem u ty b p m).length = MAX_ITEMS := by
        simp [hlen, MAX_ITEMS]
      rw [List.take_append_eq_append_take]
      have h1 : (rest.reverse.map fun u => mkHistoryItem u ty b p m).take MAX_ITEMS =
          rest.reverse.map fun u => mkHistoryItem u ty b p m := by
        rw [← hlen30]
        exact List.take_length _
      have h2 : MAX_ITEMS - (rest.reverse.map fun u => mkHistoryItem u ty b p m).length = 0 := by
        rw [hlen30]
        exact Nat.sub_self _
      rw [h1, h2, List.take_zero, List.append_nil]
    rw [hfin]
    constructor
    · simp [hlen]
    · intro hmem
      rcases List.mem_map.mp hmem with ⟨u, hu, hequ⟩
      have hid : u = t0 := by
        have := congrArg HistoryItem.id hequ
        simpa [mkHistoryItem] using this
      rw [hid] at hu
      exact (List.nodup_cons.mp hnd).1 (List.mem_reverse.mp hu)

/-- C3 witness: 31 additions at clock values 0, 1, ..., 30. -/
theorem addToHistory_roundtrip_eviction_witness :
    (getHistory (addTimes (0 :: laterTimes) HistoryType.GENERATED "b" "p" "" emptyStore)).length
        = 30 ∧
    mkHistoryItem 0 HistoryType.GENERATED "b" "p" "" ∉
      getHistory (addTimes (0 :: laterTimes) HistoryType.GENERATED "b" "p" "" emptyStore) :=
  addToHistory_roundtrip_eviction.2 0 laterTimes HistoryType.GENERATED "b" "p" ""
    (by decide) (by decide)

/-- C4 counterexample: on a store whose history has at most 5 entries (here:
empty), a quota-failing write is NOT retried at all — the instrumented run
records a single write attempt, contradicting the claim that every failing
write is retried exactly once after halving. -/
theorem addToHistory_quota_retry_counterexample :
    ¬ 2 ≤
      ((addToHistoryTr (fun _ => false) 0 0 HistoryType.GENERATED "b" "p" "" emptyStore).2).length := by
  decide

/-- C4 amended: when the first write of `addToHistory` fails with quota
exhaustion, the fallback runs only if the stored collection has more than 5
entries; it then writes the newest half (`take ⌊n/2⌋` of the
most-recent-first collection) and, if that write succeeds, retries the
addition exactly once; every failure is caught, the function always returns
(never raising to the caller), leaving the store unchanged when it gives up
early and at the half when only the retry fails. -/
theorem addToHistory_quota_amended (cw : List HistoryItem → Bool) (now now2 : ℕ)
    (ty : HistoryType) (b p m : String) (st : Store)
    (hfail : cw (attemptedWrite now ty b p m st) = false) :
    (addToHistoryTr cw now now2 ty b p m st).1 = addToHistory cw now now2 ty b p m st ∧
    ((getHistory st).length ≤ 5 →
      (addToHistoryTr cw now now2 ty b p m st).2 = [attemptedWrite now ty b p m st] ∧
      addToHistory cw now now2 ty b p m st = st) ∧
    (5 < (getHistory st).length →
      (cw (newestHalf st) = false →
        (addToHistoryTr cw now now2 ty b p m st).2 =
          [attemptedWrite now ty b p m st, newestHalf st] ∧
        addToHistory cw now now2 ty b p m st = st) ∧
      (cw (newestHalf st) = true →
        (addToHistoryTr cw now now2 ty b p m st).2 =
          [attemptedWrite now ty b p m st, newestHalf st,
            mkHistoryItem now2 ty b p m :: newestHalf st] ∧
        getHistory (addToHistory cw now now2 ty b p m st) =
          if cw (mkHistoryItem now2 ty b p m :: newestHalf st) then
            mkHistoryItem now2 ty b p m :: newestHalf st
          else newestHalf st)) := by
  simp only [attemptedWrite, newestHalf] at hfail ⊢
  have c1 : ¬ cw ((mkHistoryItem now ty b p m :: getHistory st).take MAX_ITEMS) = true := by
    rw [hfail]
    exact Bool.false_ne_true
  refine ⟨addToHistoryTr_fst cw now now2 ty b p m st, ?_, ?_⟩
  · intro h5
    have c2 : ¬ (getHistory st).length > 5 := not_lt.mpr h5
    constructor
    · simp only [addToHistoryTr]
      rw [if_neg c1, if_neg c2]
    · simp only [addToHistory]
      rw [if_neg c1, if_neg c2]
  · intro h5
    constructor
    · intro hhalf
      have c3 : ¬ cw ((getHistory st).take ((getHistory st).length / 2)) = true := by
        rw [hhalf]
        exact Bool.false_ne_true
      constructor
      · simp only [addToHistoryTr]
        rw [if_neg c1, if_pos h5, if_neg c3]
      · simp only [addToHistory]
        rw [if_neg c1, if_pos h5, if_neg c3]
    · intro hhalf
      constructor
      · simp only [addToHistoryTr]
        rw [if_neg c1, if_pos h5, if_pos hhalf]
        split_ifs <;> rfl
      · simp only [addToHistory]
        rw [if_neg c1, if_pos h5, if_pos hhalf]
        split_ifs <;> rfl

/-- C4 witness: a six-item store, a 3-item quota; the first write (7 items)
fails, the halving write (3 items) succeeds, the retry (4 items) fails, and
the store ends at the newest half. -/
theorem addToHistory_quota_amended_witness :
    getHistory (addToHistory cwSmall 20 21 HistoryType.GENERATED "b" "p" "" stSix) =
      newestHalf stSix := by
  have h := addToHistory_quota_amended cwSmall 20 21 HistoryType.GENERATED "b" "p" "" stSix
    (by decide)
  have h2 := (h.2.2 (by decide)).2 (by decide)
  exact h2.2.trans (by decide)

/-- C9 counterexample: two `addToHistory` calls within the same clock
millisecond produce two stored entries with the same id, so ids are not
unique after every sequence of add operations. -/
theorem history_ids_duplicate_counterexample :
    ¬ ((getHistory (addToHistory (fun _ => true) 0 0 HistoryType.GENERATED "b" "p" ""
          (addToHistory (fun _ => true) 0 0 HistoryType.GENERATED "b" "p" ""
            emptyStore))).map HistoryItem.id).Nodup := by
  decide

/-- The id of a freshly constructed history item is its clock value. -/
theorem mkHistoryItem_id (now : ℕ) (ty : HistoryType) (b p m : String) :
    (mkHistoryItem now ty b p m).id = now := rfl

/-- The id of a freshly constructed saved prompt is its clock value. -/
theorem mkSavedPrompt_id (now : ℕ) (text : String) :
    (mkSavedPrompt now text).id = now := rfl

/-- One `addToHistory` call preserves id-uniqueness and keeps every stored
id at most `now2`, provided the ids already stored are below `now ≤ now2`
(whatever the quota oracle does). -/
theorem addToHistory_ids_step (cw : List HistoryItem → Bool) (now now2 : ℕ)
    (ty : HistoryType) (b p m : String) (st : Store)
    (hnd : ((getHistory st).map HistoryItem.id).Nodup)
    (hb : ∀ i ∈ (getHistory st).map HistoryItem.id, i < now) (h12 : now ≤ now2) :
    ((getHistory (addToHistory cw now now2 ty b p m st)).map HistoryItem.id).Nodup ∧
    ∀ i ∈ (getHistory (addToHistory cw now now2 ty b p m st)).map HistoryItem.id,
      i < now2 + 1 := by
  have htake : ∀ k : ℕ, (((getHistory st).map HistoryItem.id).take k).Nodup ∧
      ∀ i ∈ ((getHistory st).map HistoryItem.id).take k, i < now := by
    intro k
    exact ⟨List.Nodup.sublist (List.take_sublist _ _) hnd,
      fun i hi => hb i (List.take_subset _ _ hi)⟩
  have hnotmem : ∀ k : ℕ, now2 ∉ ((getHistory st).map HistoryItem.id).take k :=
    fun k hmem => absurd (lt_of_le_of_lt h12 ((htake k).2 now2 hmem)) (lt_irrefl _)
  simp only [addToHistory]
  split_ifs with c1 c2 c3 c4
  · simp only [getHistory_update]
    rw [List.map_take, List.map_cons, mkHistoryItem_id]
    constructor
    · refine List.Nodup.sublist (List.take_sublist _ _) (List.nodup_cons.mpr ⟨?_, hnd⟩)
      intro hmem
      exact absurd (hb now hmem) (lt_irrefl _)
    · intro i hi
      rcases List.mem_cons.mp (List.take_subset _ _ hi) with h | h
      · omega
      · have := hb i h
        omega
  · simp only [getHistory_update]
    rw [List.map_cons, mkHistoryItem_id, List.map_take]
    constructor
    · exact List.nodup_cons.mpr ⟨hnotmem _, (htake _).1⟩
    · intro i hi
      rcases List.mem_cons.mp hi with h | h
      · omega
      · have := (htake _).2 i h
        omega
  · simp only [getHistory_update]
    rw [List.map_take]
    refine ⟨(htake _).1, fun i hi => ?_⟩
    have := (htake _).2 i hi
    omega
  · refine ⟨hnd, fun i hi => ?_⟩
    have := hb i hi
    omega
  · refine ⟨hnd, fun i hi => ?_⟩
    have := hb i hi
    omega

/-- One `savePrompt` call preserves id-uniqueness and keeps every stored id
at most `now`, provided the ids already stored are below `now`. -/
theorem savePrompt_ids_step (cps : List SavedPrompt → Bool) (now : ℕ) (text : String)
    (st : Store)
    (hnd : ((getSavedPrompts st).map SavedPrompt.id).Nodup)
    (hb : ∀ i ∈ (getSavedPrompts st).map SavedPrompt.id, i < now) :
    ((getSavedPrompts (savePrompt cps now text st)).map SavedPrompt.id).Nodup ∧
    ∀ i ∈ (getSavedPrompts (savePrompt cps now text st)).map SavedPrompt.id, i < now + 1 := by
  simp only [savePrompt]
  split_ifs with c1
  · simp only [getSavedPrompts_update]
    rw [List.map_cons, mkSavedPrompt_id]
    constructor
    · refine List.nodup_cons.mpr ⟨?_, hnd⟩
      intro hmem
      exact absurd (hb now hmem) (lt_irrefl _)
    · intro i hi
      rcases List.mem_cons.mp hi with h | h
      · omega
      · have := hb i h
        omega
  · refine ⟨hnd, fun i hi => ?_⟩
    have := hb i hi
    omega

/-- A run of `addToHistory` calls whose clock values are fresh and strictly
ordered keeps history ids unique, starting from any store whose ids are
unique and older than the whole run. -/
theorem runAdds_nodup (cw : List HistoryItem → Bool) :
    ∀ (reqs : List AddReq) (st : Store),
      ((getHistory st).map HistoryItem.id).Nodup →
      (∀ i ∈ (getHistory st).map HistoryItem.id, ∀ r ∈ reqs, i < r.now) →
      List.Pairwise (fun r s : AddReq => r.now2 < s.now) reqs →
      (∀ r ∈ reqs, r.now ≤ r.now2) →
      ((getHistory (runAdds cw reqs st)).map HistoryItem.id).Nodup
  | [], st, hnd, _, _, _ => hnd
  | r :: rs, st, hnd, hb, hp, h12 => by
    have step := addToHistory_ids_step cw r.now r.now2 r.type r.base64 r.prompt r.metadata st
      hnd (fun i hi => hb i hi r (List.mem_cons_self r rs)) (h12 r (List.mem_cons_self r rs))
    have hrun : runAdds cw (r :: rs) st =
        runAdds cw rs (addToHistory cw r.now r.now2 r.type r.base64 r.prompt r.metadata st) := by
      simp only [runAdds, List.foldl_cons]
    rw [hrun]
    refine runAdds_nodup cw rs _ step.1 ?_ (List.pairwise_cons.mp hp).2
      (fun s hs => h12 s (List.mem_cons_of_mem r hs))
    intro i hi s hs
    have hle : i ≤ r.now2 := Nat.lt_succ_iff.mp (step.2 i hi)
    exact lt_of_le_of_lt hle ((List.pairwise_cons.mp hp).1 s hs)

/-- A run of `savePrompt` calls at strictly increasing clock values keeps
saved-prompt ids unique, starting from any store whose ids are unique and
older than the whole run. -/
theorem runSaves_nodup (cps : List SavedPrompt → Bool) :
    ∀ (reqs : List (ℕ × String)) (st : Store),
      ((getSavedPrompts st).map SavedPrompt.id).Nodup →
      (∀ i ∈ (getSavedPrompts st).map SavedPrompt.id, ∀ r ∈ reqs, i < r.1) →
      List.Pairwise (fun a b : ℕ × String => a.1 < b.1) reqs →
      ((getSavedPrompts (runSaves cps reqs st)).map SavedPrompt.id).Nodup
  | [], st, hnd, _, _ => hnd
  | r :: rs, st, hnd, hb, hp => by
    have step := savePrompt_ids_step cps r.1 r.2 st hnd
      (fun i hi => hb i hi r (List.mem_cons_self r rs))
    have hrun : runSaves cps (r :: rs) st = runSaves cps rs (savePrompt cps r.1 r.2 st) := by
      simp only [runSaves, List.foldl_cons]
    rw [hrun]
    refine runSaves_nodup cps rs _ step.1 ?_ (List.pairwise_cons.mp hp).2
    intro i hi s hs
    have hle : i ≤ r.1 := Nat.lt_succ_iff.mp (step.2 i hi)
    exact lt_of_le_of_lt hle ((List.pairwise_cons.mp hp).1 s hs)

/-- C9 amended: starting from an empty store, after every sequence of add
operations whose clock values are strictly increasing (each call's clocks
precede the next call's, as successive `Date.now()` readings in distinct
milliseconds), any two entries stored in the same collection have distinct
ids — for any behavior of the quota oracles. -/
theorem ids_unique_amended (cw : List HistoryItem → Bool) (cps : List SavedPrompt → Bool)
    (reqs : List AddReq) (preqs : List (ℕ × String))
    (h1 : List.Pairwise (fun r s : AddReq => r.now2 < s.now) reqs)
    (h2 : ∀ r ∈ reqs, r.now ≤ r.now2)
    (h3 : List.Pairwise (fun a b : ℕ × String => a.1 < b.1) preqs) :
    ((getHistory (runAdds cw reqs emptyStore)).map HistoryItem.id).Nodup ∧
    ((getSavedPrompts (runSaves cps preqs emptyStore)).map SavedPrompt.id).Nodup := by
  constructor
  · refine runAdds_nodup cw reqs emptyStore ?_ ?_ h1 h2
    · exact List.nodup_nil
    · intro i hi
      exact absurd hi (List.not_mem_nil i)
  · refine runSaves_nodup cps preqs emptyStore ?_ ?_ h3
    · exact List.nodup_nil
    · intro i hi
      exact absurd hi (List.not_mem_nil i)

/-- C9 witness: two history additions at clocks 0 and 1 and two prompt saves
at clocks 0 and 1, all writes succeeding. -/
theorem ids_unique_amended_witness :
    ((getHistory (runAdds (fun _ => true)
        [⟨0, 0, HistoryType.GENERATED, "b", "p", ""⟩,
         ⟨1, 1, HistoryType.GENERATED, "b", "p", ""⟩] emptyStore)).map HistoryItem.id).Nodup ∧
    ((getSavedPrompts (runSaves (fun _ => true) [(0, "a"), (1, "b")]
        emptyStore)).map SavedPrompt.id).Nodup :=
  ids_unique_amended (fun _ => true) (fun _ => true)
    [⟨0, 0, HistoryType.GENERATED, "b", "p", ""⟩, ⟨1, 1, HistoryType.GENERATED, "b", "p", ""⟩]
    [(0, "a"), (1, "b")] (by decide) (by decide) (by decide)

/-- A whitespace character is not a digit. -/
theorem ws_not_digit {c : Char} (h : jsWs c = true) : c.isDigit = false := by
  simp only [jsWs, Bool.or_eq_true, beq_iff_eq] at h
  rcases h with ⟨⟨⟨⟨h | h⟩ | h⟩ | h⟩ | h⟩ | h <;> subst h <;> decide

/-- A digit is not a whitespace character. -/
theorem digit_not_ws {c : Char} (h : c.isDigit = true) : jsWs c = false := by
  cases hw : jsWs c
  · rfl
  · rw [ws_not_digit hw] at h
    exact absurd h Bool.false_ne_true

/-- `takeWhile` runs through a prefix on which the predicate holds. -/
theorem takeWhile_append_all (p : Char → Bool) (a b : List Char)
    (h : ∀ c ∈ a, p c = true) : (a ++ b).takeWhile p = a ++ b.takeWhile p := by
  induction a with
  | nil => simp
  | cons x a ih =>
    rw [List.cons_append, List.takeWhile_cons, if_pos (h x (List.mem_cons_self x a)),
      ih fun c hc => h c (List.mem_cons_of_mem x hc), List.cons_append]

/-- `dropWhile` runs through a prefix on which the predicate holds. -/
theorem dropWhile_append_all (p : Char → Bool) (a b : List Char)
    (h : ∀ c ∈ a, p c = true) : (a ++ b).dropWhile p = b.dropWhile p := by
  induction a with
  | nil => simp
  | cons x a ih =>
    rw [List.cons_append, List.dropWhile_cons, if_pos (h x (List.mem_cons_self x a)),
      ih fun c hc => h c (List.mem_cons_of_mem x hc)]

/-- `takeWhile` stops immediately on a failing head. -/
theorem takeWhile_eq_nil_of_head (p : Char → Bool) (c : Char) (b : List Char)
    (h : p c = false) : (c :: b).takeWhile p = [] := by
  rw [List.takeWhile_cons, if_neg]
  rw [h]
  exact Bool.false_ne_true

/-- `dropWhile` keeps everything from a failing head on. -/
theorem dropWhile_eq_self_of_head (p : Char → Bool) (c : Char) (b : List Char)
    (h : p c = false) : (c :: b).dropWhile p = c :: b := by
  rw [List.dropWhile_cons, if_neg]
  rw [h]
  exact Bool.false_ne_true

/-- A successful `sepSplit` detaches one of the six separator spellings. -/
theorem sepSplit_sound (r1 r2 : List Char) (h : sepSplit r1 = some r2) :
    ∃ sep, sepOK sep ∧ r1 = sep ++ r2 := by
  unfold sepSplit at h
  split at h
  · rw [Option.some_inj] at h
    subst h
    exact ⟨['x'], Or.inl rfl, rfl⟩
  · rw [Option.some_inj] at h
    subst h
    exact ⟨['X'], Or.inr (Or.inl rfl), rfl⟩
  · rw [Option.some_inj] at h
    subst h
    exact ⟨['b', 'y'], Or.inr (Or.inr (Or.inl rfl)), rfl⟩
  · rw [Option.some_inj] at h
    subst h
    exact ⟨['b', 'Y'], Or.inr (Or.inr (Or.inr (Or.inl rfl))), rfl⟩
  · rw [Option.some_inj] at h
    subst h
    exact ⟨['B', 'y'], Or.inr (Or.inr (Or.inr (Or.inr (Or.inl rfl)))), rfl⟩
  · rw [Option.some_inj] at h
    subst h
    exact ⟨['B', 'Y'], Or.inr (Or.inr (Or.inr (Or.inr (Or.inr rfl)))), rfl⟩
  · exact absurd h (by simp)

/-- `sepSplit` consumes any of the six separator spellings. -/
theorem sepSplit_complete (sep rest : List Char) (h : sepOK sep) :
    sepSplit (sep ++ rest) = some rest := by
  rcases h with rfl | rfl | rfl | rfl | rfl | rfl <;> rfl

/-- An anchored match of the dimension pattern yields a head decomposition
of the input into the pattern's pieces. -/
theorem matchDimAt_sound (l : List Char) (w h : ℕ) (hm : matchDimAt l = some (w, h)) :
    ∃ d1 w1 sep w2 d2 post,
      l = d1 ++ (w1 ++ (sep ++ (w2 ++ (d2 ++ post)))) ∧
      (∀ c ∈ d1, c.isDigit = true) ∧ 3 ≤ d1.length ∧ d1.length ≤ 5 ∧
      (∀ c ∈ w1, jsWs c = true) ∧ sepOK sep ∧ (∀ c ∈ w2, jsWs c = true) ∧
      (∀ c ∈ d2, c.isDigit = true) ∧ 3 ≤ d2.length ∧ d2.length ≤ 5 ∧
      w = digitsToNat d1 ∧ h = digitsToNat d2 := by
  simp only [matchDimAt] at hm
  by_cases h1 : 3 ≤ (l.takeWhile Char.isDigit).length ∧ (l.takeWhile Char.isDigit).length ≤ 5
  · rw [if_pos h1] at hm
    rcases hsep : sepSplit ((l.dropWhile Char.isDigit).dropWhile jsWs) with _ | r2
    · rw [hsep] at hm
      exact absurd hm (by simp)
    · rw [hsep] at hm
      dsimp only at hm
      by_cases h2 : 3 ≤ ((r2.dropWhile jsWs).takeWhile Char.isDigit).length
      · rw [if_pos h2] at hm
        rw [Option.some_inj] at hm
        obtain ⟨sep, hsepOK, hseq⟩ := sepSplit_sound _ _ hsep
        have hWH := Prod.ext_iff.mp hm
        refine ⟨l.takeWhile Char.isDigit, (l.dropWhile Char.isDigit).takeWhile jsWs, sep,
          r2.takeWhile jsWs, ((r2.dropWhile jsWs).takeWhile Char.isDigit).take 5,
          ((r2.dropWhile jsWs).takeWhile Char.isDigit).drop 5 ++
            (r2.dropWhile jsWs).dropWhile Char.isDigit,
          ?_, ?_, h1.1, h1.2, ?_, hsepOK, ?_, ?_, ?_, ?_, hWH.1.symm, hWH.2.symm⟩
        · have hr2 : r2 = r2.takeWhile jsWs ++
              ((((r2.dropWhile jsWs).takeWhile Char.isDigit).take 5) ++
                ((((r2.dropWhile jsWs).takeWhile Char.isDigit).drop 5) ++
                  (r2.dropWhile jsWs).dropWhile Char.isDigit)) := by
            conv_lhs => rw [← List.takeWhile_append_dropWhile (p := jsWs) (l := r2)]
            congr 1
            conv_lhs =>
              rw [← List.takeWhile_append_dropWhile (p := Char.isDigit)
                (l := r2.dropWhile jsWs)]
            conv_lhs =>
              rw [← List.take_append_drop 5 ((r2.dropWhile jsWs).takeWhile Char.isDigit)]
            rw [List.append_assoc]
          exact (List.takeWhile_append_dropWhile Char.isDigit l).symm.trans
            (congrArg (l.takeWhile Char.isDigit ++ ·)
              ((List.takeWhile_append_dropWhile jsWs (l.dropWhile Char.isDigit)).symm.trans
                (congrArg ((l.dropWhile Char.isDigit).takeWhile jsWs ++ ·)
                  (hseq.trans (congrArg (sep ++ ·) hr2)))))
        · intro c hc
          exact List.mem_takeWhile_imp hc
        · intro c hc
          exact List.mem_takeWhile_imp hc
        · intro c hc
          exact List.mem_takeWhile_imp hc
        · intro c hc
          exact List.mem_takeWhile_imp (List.take_subset _ _ hc)
        · rw [List.length_take]
          omega
        · rw [List.length_take]
          omega
      · rw [if_neg h2] at hm
        exact absurd hm (by simp)
  · rw [if_neg h1] at hm
    exact absurd hm (by simp)


/-- A head decomposition into the pattern's pieces makes the anchored match
succeed. -/
theorem matchDimAt_isSome (d1 w1 sep w2 d2 post : List Char)
    (hd1 : ∀ c ∈ d1, c.isDigit = true) (h3 : 3 ≤ d1.length) (h5 : d1.length ≤ 5)
    (hw1 : ∀ c ∈ w1, jsWs c = true) (hsep : sepOK sep) (hw2 : ∀ c ∈ w2, jsWs c = true)
    (hd2 : ∀ c ∈ d2, c.isDigit = true) (h3' : 3 ≤ d2.length) :
    (matchDimAt (d1 ++ (w1 ++ (sep ++ (w2 ++ (d2 ++ post)))))).isSome := by
  obtain ⟨c0, cs0, rfl, hc0d, hc0w⟩ :
      ∃ c cs, sep = c :: cs ∧ c.isDigit = false ∧ jsWs c = false := by
    rcases hsep with rfl | rfl | rfl | rfl | rfl | rfl <;> exact ⟨_, _, rfl, by decide, by decide⟩
  obtain ⟨y0, ys0, rfl⟩ : ∃ y ys, d2 = y :: ys := by
    rcases d2 with _ | ⟨y, ys⟩
    · simp at h3'
    · exact ⟨y, ys, rfl⟩
  have hy0 : y0.isDigit = true := hd2 y0 (List.mem_cons_self y0 ys0)
  have hrest1 : (w1 ++ ((c0 :: cs0) ++ (w2 ++ ((y0 :: ys0) ++ post)))).takeWhile
      Char.isDigit = [] := by
    cases w1 with
    | nil =>
      rw [List.nil_append, List.cons_append]
      exact takeWhile_eq_nil_of_head _ _ _ hc0d
    | cons x xs =>
      rw [List.cons_append]
      exact takeWhile_eq_nil_of_head _ _ _ (ws_not_digit (hw1 x (List.mem_cons_self x xs)))
  have hrest1' : (w1 ++ ((c0 :: cs0) ++ (w2 ++ ((y0 :: ys0) ++ post)))).dropWhile
      Char.isDigit = w1 ++ ((c0 :: cs0) ++ (w2 ++ ((y0 :: ys0) ++ post))) := by
    cases w1 with
    | nil =>
      rw [List.nil_append, List.cons_append]
      exact dropWhile_eq_self_of_head _ _ _ hc0d
    | cons x xs =>
      rw [List.cons_append]
      exact dropWhile_eq_self_of_head _ _ _ (ws_not_digit (hw1 x (List.mem_cons_self x xs)))
  have e1 : (d1 ++ (w1 ++ ((c0 :: cs0) ++ (w2 ++ ((y0 :: ys0) ++ post))))).takeWhile
      Char.isDigit = d1 := by
    rw [takeWhile_append_all _ _ _ hd1, hrest1, List.append_nil]
  have e2 : (d1 ++ (w1 ++ ((c0 :: cs0) ++ (w2 ++ ((y0 :: ys0) ++ post))))).dropWhile
      Char.isDigit = w1 ++ ((c0 :: cs0) ++ (w2 ++ ((y0 :: ys0) ++ post))) := by
    rw [dropWhile_append_all _ _ _ hd1, hrest1']
  have e3 : (w1 ++ ((c0 :: cs0) ++ (w2 ++ ((y0 :: ys0) ++ post)))).dropWhile jsWs =
      (c0 :: cs0) ++ (w2 ++ ((y0 :: ys0) ++ post)) := by
    rw [dropWhile_append_all _ _ _ hw1, List.cons_append]
    exact dropWhile_eq_self_of_head _ _ _ hc0w
  have e4 : sepSplit ((c0 :: cs0) ++ (w2 ++ ((y0 :: ys0) ++ post))) =
      some (w2 ++ ((y0 :: ys0) ++ post)) := sepSplit_complete _ _ hsep
  have e5 : (w2 ++ ((y0 :: ys0) ++ post)).dropWhile jsWs = (y0 :: ys0) ++ post := by
    rw [dropWhile_append_all _ _ _ hw2, List.cons_append]
    exact dropWhile_eq_self_of_head _ _ _ (digit_not_ws hy0)
  have e6 : ((y0 :: ys0) ++ post).takeWhile Char.isDigit =
      (y0 :: ys0) ++ post.takeWhile Char.isDigit := takeWhile_append_all _ _ _ hd2
  simp only [matchDimAt, e1, e2, e3, e4, e5, e6]
  rw [if_pos ⟨h3, h5⟩]
  rw [if_pos]
  · simp
  · rw [List.length_append]
    simp only [List.length_cons] at h3' ⊢
    omega

/-- Soundness of the scan: a returned pair comes from an occurrence of the
dimension pattern somewhere in the input. -/
theorem scanDim_sound : ∀ (l : List Char) (w h : ℕ),
    scanDim l = some (w, h) → DimMatch l w h
  | [], w, h => by
    intro hm
    simp [scanDim] at hm
  | c :: t, w, h => by
    intro hm
    simp only [scanDim] at hm
    rcases hmd : matchDimAt (c :: t) with _ | p
    · rw [hmd] at hm
      simp only [Option.orElse] at hm
      obtain ⟨pre, d1, w1, sep, w2, d2, post, heq, hrest⟩ := scanDim_sound t w h hm
      refine ⟨c :: pre, d1, w1, sep, w2, d2, post, ?_, hrest⟩
      rw [List.cons_append, heq]
    · rw [hmd] at hm
      simp only [Option.orElse] at hm
      rw [Option.some_inj] at hm
      obtain ⟨d1, w1, sep, w2, d2, post, heq, hrest⟩ :=
        matchDimAt_sound (c :: t) w h (by rw [hmd, hm])
      refine ⟨[], d1, w1, sep, w2, d2, post, ?_, hrest⟩
      rw [List.nil_append]
      exact heq

/-- Completeness of the scan: a successful anchored match at any suffix
makes the scan succeed. -/
theorem scanDim_isSome : ∀ (pre tail : List Char),
    (matchDimAt tail).isSome → (scanDim (pre ++ tail)).isSome
  | [], tail, hm => by
    rw [List.nil_append]
    rcases tail with _ | ⟨c, t⟩
    · simp [matchDimAt] at hm
    · simp only [scanDim]
      rcases hmd : matchDimAt (c :: t) with _ | p
      · rw [hmd] at hm
        simp at hm
      · simp [Option.orElse]
  | x :: xs, tail, hm => by
    rw [List.cons_append]
    simp only [scanDim]
    rcases hmd : matchDimAt (x :: (xs ++ tail)) with _ | p
    · have := scanDim_isSome xs tail hm
      simpa [Option.orElse] using this
    · simp [Option.orElse]

/-- An anchored match needs a nonempty input. -/
theorem matchDimAt_ne_nil {l : List Char} {p : ℕ × ℕ} (h : matchDimAt l = some p) :
    l ≠ [] := by
  rintro rfl
  simp [matchDimAt] at h

/-- The scan returns the anchored match at the earliest start position where
one succeeds; every earlier start fails. -/
theorem scanDim_first : ∀ (l : List Char) (w h : ℕ), scanDim l = some (w, h) →
    ∃ i, matchDimAt (l.drop i) = some (w, h) ∧ ∀ j < i, matchDimAt (l.drop j) = none
  | [], w, h => by
    intro hm
    simp [scanDim] at hm
  | c :: t, w, h => by
    intro hm
    simp only [scanDim] at hm
    rcases hmd : matchDimAt (c :: t) with _ | p
    · rw [hmd] at hm
      simp only [Option.orElse] at hm
      obtain ⟨i, h1, h2⟩ := scanDim_first t w h hm
      refine ⟨i + 1, by rw [List.drop_succ_cons]; exact h1, ?_⟩
      intro j hj
      rcases j with _ | j
      · rw [List.drop_zero]
        exact hmd
      · rw [List.drop_succ_cons]
        exact h2 j (by omega)
    · rw [hmd] at hm
      simp only [Option.orElse] at hm
      rw [Option.some_inj] at hm
      refine ⟨0, ?_, fun j hj => absurd hj (Nat.not_lt_zero j)⟩
      rw [List.drop_zero, hmd, hm]

/-- C7: `extractDimensionsFromPrompt` returns a pair exactly when the input
contains a substring of the form 3-5 digits, optional whitespace, `x`/`by`
(case-insensitive), optional whitespace, 3-5 digits; the returned pair is
the parse of the FIRST such occurrence — it starts no later than every
occurrence of the pattern in the input — and `none` is returned when no
such substring exists; the two instances of the claim hold. -/
theorem extractDimensionsFromPrompt_spec :
    (∀ (s : String) (w h : ℕ),
      extractDimensionsFromPrompt s = some (w, h) → DimMatch s.data w h) ∧
    (∀ (s : String) (w h : ℕ),
      extractDimensionsFromPrompt s = some (w, h) →
      ∃ pre, DimMatchFrom pre s.data w h ∧
        ∀ (pre' : List Char) (w2 h2 : ℕ), DimMatchFrom pre' s.data w2 h2 →
          pre.length ≤ pre'.length) ∧
    (∀ s : String,
      extractDimensionsFromPrompt s = none → ∀ w h, ¬ DimMatch s.data w h) ∧
    extractDimensionsFromPrompt "Cyberpunk city 1920x1080" = some (1920, 1080) ∧
    extractDimensionsFromPrompt "a nice sunset" = none := by
  refine ⟨?_, ?_, ?_, by decide, by decide⟩
  · intro s w h hm
    exact scanDim_sound s.data w h hm
  · intro s w h hm
    obtain ⟨i, hfound, hbefore⟩ := scanDim_first s.data w h hm
    have hne : s.data.drop i ≠ [] := matchDimAt_ne_nil hfound
    have hilt : i < s.data.length := by
      by_contra hle
      exact hne (List.drop_eq_nil_of_le (by omega))
    have hpre : (s.data.take i).length = i := by
      rw [List.length_take]
      omega
    obtain ⟨d1, w1, sep, w2, d2, post, heq, hrest⟩ := matchDimAt_sound _ w h hfound
    refine ⟨s.data.take i, ⟨d1, w1, sep, w2, d2, post, ?_, hrest⟩, ?_⟩
    · exact (List.take_append_drop i s.data).symm.trans (congrArg (s.data.take i ++ ·) heq)
    · intro pre2 w3 h3 hocc
      obtain ⟨d1b, w1b, sepb, w2b, d2b, postb, heqb, hd1b, h3b, h5b, hw1b, hsepb, hw2b,
        hd2b, h3c, h5c, _, _⟩ := hocc
      have hsomeb : (matchDimAt (s.data.drop pre2.length)).isSome := by
        have hdropb : s.data.drop pre2.length =
            d1b ++ (w1b ++ (sepb ++ (w2b ++ (d2b ++ postb)))) := by
          rw [heqb, List.drop_left]
        rw [hdropb]
        exact matchDimAt_isSome d1b w1b sepb w2b d2b postb hd1b h3b h5b hw1b hsepb hw2b
          hd2b h3c
      rw [hpre]
      by_contra hlt
      rw [hbefore pre2.length (by omega)] at hsomeb
      simp at hsomeb
  · intro s hnone w h hdm
    obtain ⟨pre, d1, w1, sep, w2, d2, post, heq, hd1, h3, h5, hw1, hsep, hw2, hd2, h3b, h5b,
      hw, hh⟩ := hdm
    have hsome := scanDim_isSome pre (d1 ++ (w1 ++ (sep ++ (w2 ++ (d2 ++ post)))))
      (matchDimAt_isSome d1 w1 sep w2 d2 post hd1 h3 h5 hw1 hsep hw2 hd2 h3b)
    rw [← heq] at hsome
    rw [show scanDim s.data = extractDimensionsFromPrompt s from rfl, hnone] at hsome
    simp at hsome

/-- C7 witness: the claim's own instance, and the first-match property on an
input with two occurrences of the pattern. -/
theorem extractDimensionsFromPrompt_spec_witness :
    DimMatch "Cyberpunk city 1920x1080".data 1920 1080 ∧
    (∃ pre, DimMatchFrom pre "300x400 500x600".data 300 400 ∧
      ∀ (pre' : List Char) (w2 h2 : ℕ), DimMatchFrom pre' "300x400 500x600".data w2 h2 →
        pre.length ≤ pre'.length) :=
  ⟨extractDimensionsFromPrompt_spec.1 "Cyberpunk city 1920x1080" 1920 1080 (by decide),
    extractDimensionsFromPrompt_spec.2.1 "300x400 500x600" 300 400 (by decide)⟩

/-- C8 counterexample: `"a 4x4 grid"` does NOT match — the `\d{3,5}` bound
excludes one-digit numbers — so the claimed `(4, 4)` result is wrong. -/
theorem extractDimensions_4x4_counterexample :
    extractDimensionsFromPrompt "a 4x4 grid" = none ∧
    ¬ extractDimensionsFromPrompt "a 4x4 grid" = some (4, 4) := by
  constructor
  · decide
  · decide

/-- C8 amended: `"1000 by 1000 pixels wide"` matches as 1000×1000, while
`"a 4x4 grid"` yields no match (the 3-digit lower bound excludes it; the
spec's "known limitation" example is itself erroneous). -/
theorem extractDimensions_heuristic_amended :
    extractDimensionsFromPrompt "1000 by 1000 pixels wide" = some (1000, 1000) ∧
    extractDimensionsFromPrompt "a 4x4 grid" = none := by
  constructor
  · decide
  · decide

/-- The head that survives a `dropWhile` fails the predicate. -/
theorem dropWhile_head_false (p : Char → Bool) :
    ∀ (x : List Char) (c : Char) (t : List Char),
      x.dropWhile p = c :: t → p c = false
  | [], c, t => by
    intro h
    simp at h
  | a :: x, c, t => by
    intro h
    rw [List.dropWhile_cons] at h
    by_cases ha : p a = true
    · rw [if_pos ha] at h
      exact dropWhile_head_false p x c t h
    · rw [if_neg ha] at h
      rw [← (List.cons.injEq ..).mp h |>.1]
      exact Bool.not_eq_true _ |>.mp ha

/-- `dropWhile` is idempotent. -/
theorem dropWhile_dropWhile (p : Char → Bool) (x : List Char) :
    (x.dropWhile p).dropWhile p = x.dropWhile p := by
  rcases hx : x.dropWhile p with _ | ⟨c, t⟩
  · rfl
  · exact dropWhile_eq_self_of_head p c t (dropWhile_head_false p x c t hx)

/-- A nonempty `dropWhile` result ends where the input ends. -/
theorem dropWhile_reverse_head (p : Char → Bool) :
    ∀ x : List Char, x.dropWhile p ≠ [] →
      (x.dropWhile p).reverse.head? = x.reverse.head?
  | [], h => absurd rfl h
  | a :: x, h => by
    rw [List.dropWhile_cons] at h ⊢
    by_cases ha : p a = true
    · rw [if_pos ha] at h ⊢
      have hx : x ≠ [] := by
        intro he
        subst he
        exact h rfl
      rcases hxr : x.reverse with _ | ⟨b, bs⟩
      · exact absurd (by simpa using congrArg List.reverse hxr) hx
      · rw [dropWhile_reverse_head p x h, List.reverse_cons, hxr, List.cons_append,
          List.head?_cons, List.head?_cons]
    · rw [if_neg ha]

/-- `myTrim` is idempotent. -/
theorem myTrim_idem (l : List Char) : myTrim (myTrim l) = myTrim l := by
  simp only [myTrim]
  set u := l.dropWhile jsWs with hu
  set v := u.reverse.dropWhile jsWs with hv
  by_cases hvne : v = []
  · rw [hvne]
    simp
  · have hune : u ≠ [] := by
      intro he
      rw [hv, he] at hvne
      exact hvne rfl
    obtain ⟨d, u2, hdu⟩ : ∃ d u2, u = d :: u2 := by
      rcases hx : u with _ | ⟨d, u2⟩
      · exact absurd hx hune
      · exact ⟨d, u2, rfl⟩
    have hd : jsWs d = false := dropWhile_head_false jsWs l d u2 (hu ▸ hdu)
    have hrevhead : v.reverse.head? = some d := by
      rw [hv, dropWhile_reverse_head jsWs u.reverse (by rw [← hv]; exact hvne),
        List.reverse_reverse, hdu, List.head?_cons]
    have hstep1 : v.reverse.dropWhile jsWs = v.reverse := by
      rcases hw : v.reverse with _ | ⟨e, es⟩
      · rfl
      · rw [hw, List.head?_cons, Option.some_inj] at hrevhead
        subst hrevhead
        exact dropWhile_eq_self_of_head jsWs e es hd
    rw [hstep1, List.reverse_reverse, hv, dropWhile_dropWhile]

/-- C5 counterexample: with an un-emphasized label the primary pattern does
not apply (its `\*\*?` requires at least one asterisk on each side of the
label), so the code falls back to the split and keeps the Style section —
the claim's "optionally-emphasized" primary would have stopped before it. -/
theorem extractEnhancedPrompt_counterexample :
    extractEnhancedPrompt "Enhanced Prompt: A dog\n**Style Suggestions:**\n* X" =
      "A dog\n**Style Suggestions:**\n* X" ∧
    extractEnhancedPrompt "Enhanced Prompt: A dog\n**Style Suggestions:**\n* X" ≠
      "A dog" := by
  constructor
  · decide
  · decide

/-- C5 amended: the primary capture requires one or two literal asterisks on
each side of the case-insensitive label (colon optional before the closing
asterisks) and stops before a newline followed by an asterisk-emphasized
`Style`/`Options` label, a `---`, or trailing whitespace to end of input;
only if it fails does the fallback split on all occurrences of the label and
take the segment between the first and second occurrence (everything after
the first when there is no second, nothing when the segment is empty); the
result is always trimmed, is the empty string when neither strategy
matches, and the operation is total. -/
theorem extractEnhancedPrompt_amended :
    extractEnhancedPrompt "**Enhanced Prompt:** A cat. \n**Style Suggestions:**\n* Anime" =
      "A cat." ∧
    extractEnhancedPrompt "Enhanced Prompt: A Enhanced Prompt: B" = "A" ∧
    extractEnhancedPrompt "no label here" = "" ∧
    (∀ s : String, myTrim (extractEnhancedPromptL s.data) = extractEnhancedPromptL s.data) ∧
    (∀ (l cap : List Char), scanEnhanced l = some cap →
      extractEnhancedPromptL l = myTrim cap) ∧
    (∀ l : List Char, scanEnhanced l = none → splitTailEnhanced l = none →
      extractEnhancedPromptL l = []) := by
  refine ⟨by decide, by decide, by decide, ?_, ?_, ?_⟩
  · intro s
    simp only [extractEnhancedPromptL]
    rcases scanEnhanced s.data with _ | cap
    · rcases splitTailEnhanced s.data with _ | seg
      · rfl
      · dsimp only
        rcases seg.isEmpty with _ | _
        · simp only [Bool.false_eq_true, if_false]
          exact myTrim_idem seg
        · simp only [if_true]
          rfl
    · exact myTrim_idem cap
  · intro l cap hs
    simp only [extractEnhancedPromptL, hs]
  · intro l hs hf
    simp only [extractEnhancedPromptL, hs, hf]

/-- C5 witness: neither strategy matches on a label-free input. -/
theorem extractEnhancedPrompt_amended_witness :
    extractEnhancedPromptL "zzz".data = [] :=
  extractEnhancedPrompt_amended.2.2.2.2.2 "zzz".data (by decide) (by decide)

/-- C6 counterexample: with an un-emphasized section label, `extractStyles`
finds nothing — its `\*\*?` requires at least one asterisk on each side of
`Style Suggestions` — contradicting the claim's "optionally-emphasized"
label. -/
theorem extractStyles_counterexample :
    extractStyles "Style Suggestions:\n* Anime" = [] ∧
    extractStyles "Style Suggestions:\n* Anime" ≠ ["Anime"] := by
  constructor
  · decide
  · decide

/-- C6 amended: the section label requires one or two asterisks on each side
of the case-insensitive `Style Suggestions` (colon optional); the capture
runs to the first `---` or the end of input; the captured block is split on
newlines, each line trimmed, lines kept exactly when their first character
is an asterisk, hyphen, bullet, digit, or `.`, and the leading run of those
marker characters plus following whitespace is stripped, preserving order;
the operation is total and every returned option starts with a
non-whitespace character. -/
theorem extractStyles_amended :
    extractStyles "**Enhanced Prompt:** A cat. \n**Style Suggestions:**\n* Anime" =
      ["Anime"] ∧
    extractStyles "**Style Suggestions:**\n* A\n- B\nplain line\n1. C\n---\n* after" =
      ["A", "B", "C"] ∧
    (∀ l : List Char, scanStyle l = none → extractStylesL l = []) ∧
    (∀ (l x : List Char) (c : Char), x ∈ extractStylesL l → x.head? = some c →
      jsWs c = false) := by
  refine ⟨by decide, by decide, ?_, ?_⟩
  · intro l hs
    simp only [extractStylesL, hs]
  · intro l x c hx hc
    simp only [extractStylesL] at hx
    rcases hb : scanStyle l with _ | block
    · rw [hb] at hx
      exact absurd hx (List.not_mem_nil x)
    · rw [hb] at hx
      dsimp only at hx
      rcases List.mem_map.mp hx with ⟨line, _, hline⟩
      rw [← hline] at hc
      rcases hy : (line.dropWhile markerChar).dropWhile jsWs with _ | ⟨e, es⟩
      · rw [hy] at hc
        exact absurd hc (by simp)
      · rw [hy, List.head?_cons, Option.some_inj] at hc
        rw [← hc]
        exact dropWhile_head_false jsWs (line.dropWhile markerChar) e es hy

/-- C6 witness: the returned option `"Anime"` of the claim's instance starts
with a non-whitespace character. -/
theorem extractStyles_amended_witness :
    jsWs 'A' = false :=
  extractStyles_amended.2.2.2
    "**Enhanced Prompt:** A cat. \n**Style Suggestions:**\n* Anime".data "Anime".data 'A'
    (by decide) (by decide)
